import Mathlib

/-!
Verification of the venue serialization/deserialization slice of the
nightguide-api repository (`src/routes/venues/venueRepository.js`).

The JavaScript source is embedded shallowly:

* JS numbers are modelled as `ℚ` (the code only moves numbers around and
  compares them; no arithmetic is performed, so the embedding is exact);
* a possibly-absent JS value (`undefined`) is an `Option`;
* JS truthiness is made explicit: a number is truthy iff it is nonzero, a
  string iff it is nonempty, `null`/`undefined` are falsy, and objects and
  arrays are always truthy;
* `Array.prototype.reduce(callback, null)` is embedded as `runReduce`,
  a fuel-indexed fold over the element indices, with the accumulator kept in
  a small inductive (`JsAcc`/`JsAccN`) that distinguishes `null`, `undefined`
  and a proper result, so that the `if (range) return range;` truthiness test
  of the source is mirrored exactly;
* code that can throw (`TypeError` on a property access of `undefined`,
  `ConfigNotFoundError` from the city-config lookup) returns `Except`.
-/

/-- A value produced by the range bucketer of `getCapacityRange` /
`getEntranceFeeRange`: either a pair `[lowerBound, upperBound]` or the
bare last boundary (`return lowerBound` in the no-upper-bound branch). -/
inductive RangeResult where
  | range (lower upper : ℚ)
  | single (value : ℚ)
deriving DecidableEq, Repr

/-- The accumulator of the JS `reduce` in the range bucketer: the initial
`null`, the `undefined` produced by a callback that falls through all
branches, or a returned `RangeResult`. -/
inductive JsAcc where
  | null
  | undefined
  | result (r : RangeResult)
deriving DecidableEq, Repr

/-- JS truthiness of the accumulator, as tested by `if (range) return range;`:
`null` and `undefined` are falsy, an array (a pair) is truthy, and a bare
number is truthy iff it is nonzero. -/
def JsAcc.truthy : JsAcc → Bool
  | .null => false
  | .undefined => false
  | .result (.range _ _) => true
  | .result (.single x) => decide (x ≠ 0)

/-- Final value of the reduce, as consumed by callers: a `RangeResult` or
`null` (an `undefined` final value cannot occur for a nonempty boundary
list, and for the empty list the reduce yields its initial `null`). -/
def JsAcc.toResult : JsAcc → Option RangeResult
  | .result r => some r
  | _ => none

/-- `ranges.reduce(callback, init)` where the callback reads the element
index: `runReduce step fuel i acc` performs `fuel` callback invocations
starting at index `i`. The bucketers run it with `fuel = ranges.length`
and `i = 0`. -/
def runReduce {α : Type} (step : α → ℕ → α) : ℕ → ℕ → α → α
  | 0, _, acc => acc
  | fuel + 1, i, acc => runReduce step fuel (i + 1) (step acc i)

/-- One callback invocation of the reduce shared by `getCapacityRange` and
`getEntranceFeeRange`:

```js
(range, lowerBound, index) => {
  if (range) { return range; }
  const upperBound = ranges[index + 1];
  if (!upperBound) { return lowerBound; }
  if (v > lowerBound && v <= upperBound) { return [lowerBound, upperBound]; }
}
```

`!upperBound` is true both when `index + 1` is out of bounds (`undefined`)
and when the boundary there is the number `0`. A callback that falls
through returns JS `undefined` (`JsAcc.undefined`). -/
def rangeStep (ranges : List ℚ) (v : ℚ) (acc : JsAcc) (i : ℕ) : JsAcc :=
  if acc.truthy then acc
  else
    match ranges.get? (i + 1) with
    | none => .result (.single (ranges.getD i 0))
    | some upper =>
      if upper = 0 then .result (.single (ranges.getD i 0))
      else if ranges.getD i 0 < v ∧ v ≤ upper then
        .result (.range (ranges.getD i 0) upper)
      else .undefined

/-- The range bucketer: `ranges.reduce(rangeStep, null)` as used by
`getCapacityRange` (over the global capacity table) and
`getEntranceFeeRange` (over `cityConf.entranceFeeRanges`). -/
def rangeBucket (ranges : List ℚ) (v : ℚ) : Option RangeResult :=
  (runReduce (rangeStep ranges v) ranges.length 0 .null).toResult

/-- Accumulator of the reduce inside `getPriceClass` (`getClassForRanges`),
whose returned results are 1-based indices rather than ranges. -/
inductive JsAccN where
  | null
  | undefined
  | result (n : ℕ)
deriving DecidableEq, Repr

/-- Truthiness of the class accumulator: a returned index is truthy iff
nonzero (the code only ever returns `index + 1 ≥ 1`). -/
def JsAccN.truthy : JsAccN → Bool
  | .result n => decide (n ≠ 0)
  | _ => false

/-- Final value of the class reduce as consumed by `Math.max`. -/
def JsAccN.toResult : JsAccN → Option ℕ
  | .result n => some n
  | _ => none

/-- JS `price > x` where `price` may be `undefined`: a comparison against
`undefined` is `false` (NaN semantics). -/
def jsGtOpt : Option ℚ → ℚ → Bool
  | none, _ => false
  | some p, x => decide (x < p)

/-- JS `price <= x` where `price` may be `undefined`. -/
def jsLeOpt : Option ℚ → ℚ → Bool
  | none, _ => false
  | some p, x => decide (p ≤ x)

/-- One callback invocation of the reduce in `getClassForRanges`:

```js
(range, lowerBound, index) => {
  if (range) { return range; }
  const upperBound = ranges[index + 1];
  if (!upperBound || (price > lowerBound && price <= upperBound)) {
    return index + 1;
  }
}
```
-/
def classStep (ranges : List ℚ) (price : Option ℚ) (acc : JsAccN) (i : ℕ) : JsAccN :=
  if acc.truthy then acc
  else
    match ranges.get? (i + 1) with
    | none => .result (i + 1)
    | some upper =>
      if upper = 0 then .result (i + 1)
      else if jsGtOpt price (ranges.getD i 0) && jsLeOpt price upper then
        .result (i + 1)
      else .undefined

/-- `getClassForRanges(ranges, price)` from `getPriceClass`: the 1-based
class index of `price` in the boundary table, or `null` for an empty
table. The price is passed through unchecked, so it may be `undefined`. -/
def getClassForRanges (ranges : List ℚ) (price : Option ℚ) : Option ℕ :=
  (runReduce (classStep ranges price) ranges.length 0 .null).toResult

/-- JS truthiness of a possibly-absent number (`if (venue.capacity)`,
`!venue.prices.coke`, ...): absent or zero is falsy. -/
def jsTruthyNum : Option ℚ → Bool
  | none => false
  | some q => decide (q ≠ 0)

/-- JS truthiness of a possibly-absent string (`if (data.id)`,
`!data.queryText`, ...): absent or empty is falsy. -/
def jsTruthyStr : Option String → Bool
  | none => false
  | some s => decide (s ≠ "")

/-- The `prices` sub-object of a venue payload. -/
structure Prices where
  coke : Option ℚ
  beer : Option ℚ
deriving DecidableEq, Repr

/-- The per-beverage boundary tables of a city configuration. -/
structure PriceClassRanges where
  coke : List ℚ
  beer : List ℚ
deriving DecidableEq, Repr

/-- A city configuration, as consumed by this slice: currency code,
price-class boundary tables, entrance-fee boundary table. The table data
itself lives in `shared/cityConfig` (outside this slice). -/
structure CityConfig where
  currency : String
  priceClassRanges : PriceClassRanges
  entranceFeeRanges : List ℚ
deriving DecidableEq, Repr

/-- `Math.max(cokeClass, beerClass)` as applied to the two class values:
each operand is a number or `null`, and JS coerces `null` to `0`.
(An `undefined` operand — which would give `NaN` — cannot occur: for a
nonempty table the reduce always returns an index, and for an empty table
it returns `null`.) -/
def jsMathMax (a b : Option ℕ) : ℕ := max (a.getD 0) (b.getD 0)

/-- `getPriceClass(venue, cityConf)`: `null` when both beverage prices are
falsy (absent or zero); otherwise the `Math.max` of the two per-category
class indices, each computed by `getClassForRanges` — also for a category
whose price is absent. -/
def getPriceClass (pr : Prices) (conf : CityConfig) : Option ℕ :=
  if !jsTruthyNum pr.coke && !jsTruthyNum pr.beer then none
  else
    let cokeClass := getClassForRanges conf.priceClassRanges.coke pr.coke
    let beerClass := getClassForRanges conf.priceClassRanges.beer pr.beer
    some (jsMathMax cokeClass beerClass)

/-- The value stored under `location.coordinates`: either the client form
`{longitude, latitude}` or the storage (GeoJSON) form
`{type: 'Point', coordinates: [lon, lat]}`. Components are `Option ℚ`
because JS property/array access can yield `undefined`. -/
inductive CoordVal where
  | labeled (longitude latitude : Option ℚ)
  | point (type : String) (coords : List (Option ℚ))
deriving DecidableEq, Repr

/-- JS `coordinates.longitude`: present only on the labeled form
(`undefined` on a GeoJSON object). -/
def CoordVal.jsLongitude : CoordVal → Option ℚ
  | .labeled lo _ => lo
  | .point _ _ => none

/-- JS `coordinates.latitude`. -/
def CoordVal.jsLatitude : CoordVal → Option ℚ
  | .labeled _ la => la
  | .point _ _ => none

/-- The `location` sub-object of a venue. -/
structure Location where
  country : Option String
  city : Option String
  coordinates : Option CoordVal
  address : Option String
deriving DecidableEq, Repr

/-- The `fees` sub-object of a venue. -/
structure Fees where
  entrance : Option ℚ
  coatCheck : Option ℚ
deriving DecidableEq, Repr

/-- A venue image document. `mongoId` embeds the `_id` key. -/
structure Image where
  mongoId : Option String
  id : Option String
  url : Option String
deriving DecidableEq, Repr

/-- A venue object — payload, stored document and client view alike (JS is
dynamic; a `none` field is an absent key). `mongoId` embeds the `_id` key.
`priceClass`, `capacityRange` and `entranceFeeRange` have a doubled
`Option` because the code can store JS `null` under a present key. -/
structure Venue where
  mongoId : Option String
  id : Option String
  sourceId : Option String
  name : Option String
  description : Option String
  queryText : Option String
  location : Option Location
  capacity : Option ℚ
  fees : Option Fees
  prices : Option Prices
  images : Option (List Image)
  priceClass : Option (Option ℕ)
  capacityRange : Option (Option RangeResult)
  entranceFeeRange : Option (Option RangeResult)
  currency : Option String
deriving DecidableEq, Repr

/-- The venue with no keys at all. -/
def emptyVenue : Venue :=
  ⟨none, none, none, none, none, none, none, none, none, none, none, none,
   none, none, none⟩

/-- A thrown JS exception: a `TypeError` from a property access on
`undefined` (or from `unidecode` applied to `undefined`), or the
configuration lookup failure of `shared/cityConfig`. -/
inductive JsError where
  | typeError
  | configNotFound
deriving DecidableEq, Repr

/-- Modelled from the spec: the external text-normalization utility
(`unidecode`), "a text-normalization transform that strips
diacritics/accents to plain ASCII-range characters". Code points that are
already plain ASCII pass through unchanged, so on the ASCII-only strings
appearing in this development the transform is the identity, and it is
modelled as such. -/
def unidecode (s : String) : String := s

/-- `deserializeImage(venueImage)`: snapshot (value semantics: the value
itself), rename `_id` to `id`, delete `_id`. -/
def deserializeImage (img : Image) : Image :=
  { img with id := img.mongoId, mongoId := none }

/-- The identifier-rename and internal-field-deletion section of
`deserialize`: `venue.id = venue._id; delete venue._id;
delete venue.sourceId; delete venue.queryText;`. -/
def deserializeRename (venue : Venue) : Venue :=
  { venue with id := venue.mongoId, mongoId := none,
               sourceId := none, queryText := none }

/-- `if (venue.images) venue.images = venue.images.map(deserializeImage);`
(an array, even empty, is truthy). -/
def deserializeImages (v : Venue) : Venue :=
  match v.images with
  | some imgs => { v with images := some (imgs.map deserializeImage) }
  | none => v

/-- `if (venue.location.coordinates) { ... }`: unpack the GeoJSON pair
into `{longitude, latitude}`. On a labeled-form value the source reads
`venue.location.coordinates.coordinates[0]`, i.e. it indexes `undefined`,
which throws. -/
def decodeCoords (loc : Location) : Except JsError Location :=
  match loc.coordinates with
  | none => .ok loc
  | some (.point _ cs) =>
    let dec : Option CoordVal := some (.labeled (cs.get? 0).join (cs.get? 1).join)
    .ok { loc with coordinates := dec }
  | some (.labeled _ _) => .error .typeError

/-- The computed-field section of `deserialize`: `capacityRange` when
`capacity` is truthy; `currency` (and `entranceFeeRange` when
`fees.entrance` is truthy) when `fees` is present. -/
def deserializeComputed (capRanges : List ℚ) (conf : CityConfig)
    (v3 : Venue) : Venue :=
  let v4 :=
    if jsTruthyNum v3.capacity then
      let cr : Option (Option RangeResult) :=
        some (rangeBucket capRanges (v3.capacity.getD 0))
      { v3 with capacityRange := cr }
    else v3
  match v4.fees with
  | none => v4
  | some fees =>
    let vc := { v4 with currency := some conf.currency }
    if jsTruthyNum fees.entrance then
      let er : Option (Option RangeResult) :=
        some (rangeBucket conf.entranceFeeRanges (fees.entrance.getD 0))
      { vc with entranceFeeRange := er }
    else vc

/-- `deserialize(venue)` from `venueRepository.js`. The city-config lookup
is injected as `f` (modelled from the spec: `shared/cityConfig.get`
resolves `(country, city)` to a `CityConfig` or fails with
`ConfigNotFoundError`), and the global `VENUE_CAPACITY_RANGES` table of
`shared/constants` is injected as `capRanges`; both live outside this
slice. Steps, in source order: snapshot (`toObject`/`cloneDeep`; the
identity on values), identifier rename and internal-field deletion, image
list transformation, geo-point decoding (a `TypeError` when `location` is
absent, because `venue.location.coordinates` dereferences `undefined`),
config resolution, computed fields. -/
def deserialize (f : Option String → Option String → Option CityConfig)
    (capRanges : List ℚ) (venue : Venue) : Except JsError Venue :=
  let v2 := deserializeImages (deserializeRename venue)
  match v2.location with
  | none => .error .typeError
  | some loc =>
    match decodeCoords loc with
    | .error e => .error e
    | .ok loc2 =>
      match f loc2.country loc2.city with
      | none => .error .configNotFound
      | some conf =>
        .ok (deserializeComputed capRanges conf { v2 with location := some loc2 })

/-- `if (data.id) { data._id = data.id; delete data.id; }` -/
def serializeRename (data : Venue) : Venue :=
  if jsTruthyStr data.id then { data with mongoId := data.id, id := none }
  else data

/-- The config-resolution section of `serialize`: only when `location`,
`location.country` and `location.city` are all truthy; a failing lookup
throws (modelled from the spec, see `deserialize`). -/
def serializeConf (f : Option String → Option String → Option CityConfig)
    (d1 : Venue) : Except JsError (Option CityConfig) :=
  match d1.location with
  | none => .ok none
  | some loc =>
    if jsTruthyStr loc.country && jsTruthyStr loc.city then
      match f loc.country loc.city with
      | some c => .ok (some c)
      | none => .error .configNotFound
    else .ok none

/-- `if (data.prices && cityConf) data.priceClass = getPriceClass(...);` -/
def serializePriceClass (d1 : Venue) (c? : Option CityConfig) : Venue :=
  match d1.prices, c? with
  | some pr, some conf => { d1 with priceClass := some (getPriceClass pr conf) }
  | _, _ => d1

/-- `if (data.location && data.location.coordinates) { ... }`: re-encode
the coordinate pair as a GeoJSON point, reading `.longitude` and
`.latitude` off whatever object is stored there. -/
def serializeCoords (d2 : Venue) : Venue :=
  match d2.location with
  | none => d2
  | some loc =>
    match loc.coordinates with
    | none => d2
    | some cv =>
      let enc : Option CoordVal := some (.point "Point" [cv.jsLongitude, cv.jsLatitude])
      { d2 with location := some { loc with coordinates := enc } }

/-- `if (!data.queryText) data.queryText = unidecode(data.name);`
(`unidecode` applied to an absent name throws a `TypeError`). -/
def serializeQueryText (d3 : Venue) : Except JsError Venue :=
  if jsTruthyStr d3.queryText then .ok d3
  else
    match d3.name with
    | some n => .ok { d3 with queryText := some (unidecode n) }
    | none => .error .typeError

/-- `serialize(data)` from `venueRepository.js`, with the city-config
lookup injected as `f` (see `deserialize`). Steps, in source order:
identifier rename (guarded by the truthiness of `data.id`), config
resolution, `priceClass`, geo-point encoding, `queryText` derivation. -/
def serialize (f : Option String → Option String → Option CityConfig)
    (data : Venue) : Except JsError Venue :=
  let d1 := serializeRename data
  match serializeConf f d1 with
  | .error e => .error e
  | .ok c? => serializeQueryText (serializeCoords (serializePriceClass d1 c?))

/-- The value of the caller's argument object after `serialize` returns.
`serialize` takes no snapshot: `data._id = data.id`, `delete data.id`,
`data.priceClass = ...`, `data.location.coordinates = ...` and
`data.queryText = ...` all write through the caller's reference, so after
a successful call the caller's object is the returned document. (When
`serialize` throws, the caller's object retains the writes made before the
throw; no claim exercises that path and it is not modelled.) -/
def serializeCallerAfter (f : Option String → Option String → Option CityConfig)
    (data : Venue) : Venue :=
  match serialize f data with
  | .ok d => d
  | .error _ => data

/-- The value of the caller's stored object after `deserialize` returns:
the function first rebinds its local variable to `venue.toObject()` or
`_.cloneDeep(venue)` — an independent copy — so every later write
(`venue.id = ...`, `delete venue._id`, the computed fields) hits the copy
and the caller's object is unchanged. -/
def deserializeCallerAfter
    (_f : Option String → Option String → Option CityConfig)
    (_capRanges : List ℚ) (venue : Venue) : Venue :=
  venue

/-! ### Helper lemmas about list indexing and ascending boundary tables -/

/-- `ranges[n]` is defined and equals the `getD` view when `n` is in range. -/
lemma get?_of_lt {l : List ℚ} {n : ℕ} (h : n < l.length) :
    l.get? n = some (l.getD n 0) := by
  rw [List.getD_eq_getElem?_getD, List.get?_eq_getElem?]
  cases hx : l[n]? with
  | none => rw [List.getElem?_eq_none_iff] at hx; omega
  | some x => simp

/-- `ranges[n]` is JS `undefined` when `n` is out of range. -/
lemma get?_of_ge {l : List ℚ} {n : ℕ} (h : l.length ≤ n) : l.get? n = none := by
  simp [List.get?_eq_getElem?, List.getElem?_eq_none_iff, h]

/-- Adjacent boundaries of a strictly ascending table, through `getD`. -/
lemma chain_getD_lt : ∀ {b : List ℚ}, List.Chain' (· < ·) b →
    ∀ j, j + 1 < b.length → b.getD j 0 < b.getD (j + 1) 0 := by
  intro b
  induction b with
  | nil => intro _ j hj; simp at hj
  | cons a l ih =>
    intro h j hj
    cases l with
    | nil => simp at hj
    | cons c l' =>
      rcases List.chain'_cons.mp h with ⟨hac, htail⟩
      cases j with
      | zero => simpa using hac
      | succ j' =>
        have hlen : j' + 1 < (c :: l').length := by
          simpa using Nat.lt_of_succ_lt_succ hj
        simpa using ih htail j' hlen

/-- Monotonicity of a strictly ascending table, through `getD`. -/
lemma chain_getD_le {b : List ℚ} (h : List.Chain' (· < ·) b) :
    ∀ m n, m ≤ n → n < b.length → b.getD m 0 ≤ b.getD n 0 := by
  intro m n
  induction n with
  | zero =>
    intro hmn _
    have : m = 0 := Nat.le_zero.mp hmn
    simp [this]
  | succ k ih =>
    intro hmn hn
    rcases Nat.lt_or_ge m (k + 1) with hm | hm
    · exact le_trans (ih (by omega) (by omega))
        (le_of_lt (chain_getD_lt h k hn))
    · have : m = k + 1 := by omega
      simp [this]

/-- A boundary table the bucketers handle as the spec intends: strictly
ascending, nonempty, and with no zero boundary past the head (a zero
boundary is JS-falsy, so the `!upperBound` branch would end the scan
early). Any nonempty strictly ascending table of nonnegative boundaries
satisfies this. -/
def goodTable (b : List ℚ) : Prop :=
  List.Chain' (· < ·) b ∧ b ≠ [] ∧ ∀ j < b.length, 0 < j → b.getD j 0 ≠ 0

instance (b : List ℚ) : Decidable (goodTable b) := by
  unfold goodTable; infer_instance

/-! ### Behaviour of the reduce-based bucketers -/

/-- A reduce whose callback fixes the accumulator never changes it. -/
lemma runReduce_fixed {α : Type} (step : α → ℕ → α) (acc : α)
    (h : ∀ i, step acc i = acc) : ∀ fuel i, runReduce step fuel i acc = acc := by
  intro fuel
  induction fuel with
  | zero => intro i; rfl
  | succ n ih => intro i; rw [runReduce, h i]; exact ih (i + 1)

/-- `if (range) return range;`: a truthy accumulator survives the range reduce. -/
lemma rangeStep_truthy {b : List ℚ} {v : ℚ} {acc : JsAcc} {i : ℕ}
    (h : acc.truthy = true) : rangeStep b v acc i = acc := by
  simp [rangeStep, h]

/-- `if (range) return range;`: a truthy accumulator survives the class reduce. -/
lemma classStep_truthy {b : List ℚ} {p : Option ℚ} {acc : JsAccN} {i : ℕ}
    (h : acc.truthy = true) : classStep b p acc i = acc := by
  simp [classStep, h]

/-- Evaluation of one range-reduce callback at an interior index (an upper
boundary exists and is nonzero): the interval test decides the result. -/
lemma rangeStep_eval_mid {b : List ℚ} {v : ℚ} {acc : JsAcc} {i : ℕ}
    (hacc : acc.truthy = false) (hlt : i + 1 < b.length)
    (hz1 : b.getD (i + 1) 0 ≠ 0) :
    rangeStep b v acc i =
      if b.getD i 0 < v ∧ v ≤ b.getD (i + 1) 0 then
        .result (.range (b.getD i 0) (b.getD (i + 1) 0))
      else .undefined := by
  rw [rangeStep, hacc]
  simp only [Bool.false_eq_true, if_false]
  rw [get?_of_lt hlt]
  show (if b.getD (i + 1) 0 = 0 then JsAcc.result (.single (b.getD i 0))
        else if b.getD i 0 < v ∧ v ≤ b.getD (i + 1) 0 then
          JsAcc.result (.range (b.getD i 0) (b.getD (i + 1) 0))
        else JsAcc.undefined) = _
  rw [if_neg hz1]

/-- Evaluation of one range-reduce callback at the last index (no upper
boundary): `return lowerBound`. -/
lemma rangeStep_eval_last {b : List ℚ} {v : ℚ} {acc : JsAcc} {i : ℕ}
    (hacc : acc.truthy = false) (hge : b.length ≤ i + 1) :
    rangeStep b v acc i = .result (.single (b.getD i 0)) := by
  rw [rangeStep, hacc]
  simp only [Bool.false_eq_true, if_false]
  rw [get?_of_ge hge]

/-- Core lemma for the matching case of the range bucketer: if `v` lies in
the interval `(b[i], b[i+1]]` of a strictly ascending table with no zero
boundary past the head, the reduce started at any index `j ≤ i` with a
falsy accumulator ends with the pair `[b[i], b[i+1]]`. -/
lemma runReduce_range_match {b : List ℚ} {v : ℚ} {i : ℕ}
    (hasc : List.Chain' (· < ·) b)
    (hz : ∀ j < b.length, 0 < j → b.getD j 0 ≠ 0)
    (hi : i + 1 < b.length)
    (hlo : b.getD i 0 < v) (hhi : v ≤ b.getD (i + 1) 0) :
    ∀ j acc, j ≤ i → acc.truthy = false →
      runReduce (rangeStep b v) (b.length - j) j acc =
        .result (.range (b.getD i 0) (b.getD (i + 1) 0)) := by
  intro j acc hj hacc
  obtain ⟨d, hd⟩ : ∃ d, i - j = d := ⟨_, rfl⟩
  induction d generalizing j acc with
  | zero =>
    have hji : j = i := by omega
    subst hji
    have hfuel : b.length - j = (b.length - (j + 1)) + 1 := by omega
    rw [hfuel, runReduce]
    have hstep : rangeStep b v acc j =
        .result (.range (b.getD j 0) (b.getD (j + 1) 0)) := by
      rw [rangeStep_eval_mid hacc hi (hz (j + 1) hi (by omega)),
        if_pos ⟨hlo, hhi⟩]
    rw [hstep]
    apply runReduce_fixed
    intro k
    exact rangeStep_truthy rfl
  | succ d ih =>
    have hji : j < i := by omega
    have hjlen : j + 1 < b.length := by omega
    have hfuel : b.length - j = (b.length - (j + 1)) + 1 := by omega
    rw [hfuel, runReduce]
    have hstep : rangeStep b v acc j = .undefined := by
      have h2 : ¬(b.getD j 0 < v ∧ v ≤ b.getD (j + 1) 0) := by
        rintro ⟨-, hle⟩
        have : b.getD (j + 1) 0 ≤ b.getD i 0 :=
          chain_getD_le hasc (j + 1) i (by omega) (by omega)
        linarith
      rw [rangeStep_eval_mid hacc hjlen (hz (j + 1) hjlen (by omega)),
        if_neg h2]
    rw [hstep]
    exact ih (j + 1) .undefined (by omega) rfl (by omega)

/-- The matching case of the range bucketer, at the top level. -/
lemma rangeBucket_match {b : List ℚ} {v : ℚ} {i : ℕ}
    (hasc : List.Chain' (· < ·) b)
    (hz : ∀ j < b.length, 0 < j → b.getD j 0 ≠ 0)
    (hi : i + 1 < b.length)
    (hlo : b.getD i 0 < v) (hhi : v ≤ b.getD (i + 1) 0) :
    rangeBucket b v = some (.range (b.getD i 0) (b.getD (i + 1) 0)) := by
  have h := runReduce_range_match hasc hz hi hlo hhi 0 .null (Nat.zero_le i) rfl
  rw [Nat.sub_zero] at h
  rw [rangeBucket, h]
  rfl

/-- Evaluation of one class-reduce callback at an interior index. -/
lemma classStep_eval_mid {b : List ℚ} {p : Option ℚ} {acc : JsAccN} {i : ℕ}
    (hacc : acc.truthy = false) (hlt : i + 1 < b.length)
    (hz1 : b.getD (i + 1) 0 ≠ 0) :
    classStep b p acc i =
      if jsGtOpt p (b.getD i 0) && jsLeOpt p (b.getD (i + 1) 0) then
        .result (i + 1)
      else .undefined := by
  rw [classStep, hacc]
  simp only [Bool.false_eq_true, if_false]
  rw [get?_of_lt hlt]
  show (if b.getD (i + 1) 0 = 0 then JsAccN.result (i + 1)
        else if jsGtOpt p (b.getD i 0) && jsLeOpt p (b.getD (i + 1) 0) then
          JsAccN.result (i + 1)
        else JsAccN.undefined) = _
  rw [if_neg hz1]

/-- Evaluation of one class-reduce callback at the last index:
`!upperBound` holds, so `return index + 1`. -/
lemma classStep_eval_last {b : List ℚ} {p : Option ℚ} {acc : JsAccN} {i : ℕ}
    (hacc : acc.truthy = false) (hge : b.length ≤ i + 1) :
    classStep b p acc i = .result (i + 1) := by
  rw [classStep, hacc]
  simp only [Bool.false_eq_true, if_false]
  rw [get?_of_ge hge]

/-- Core lemma for the matching case of the class reduce. -/
lemma runReduce_class_match {b : List ℚ} {p : ℚ} {i : ℕ}
    (hasc : List.Chain' (· < ·) b)
    (hz : ∀ j < b.length, 0 < j → b.getD j 0 ≠ 0)
    (hi : i + 1 < b.length)
    (hlo : b.getD i 0 < p) (hhi : p ≤ b.getD (i + 1) 0) :
    ∀ j acc, j ≤ i → acc.truthy = false →
      runReduce (classStep b (some p)) (b.length - j) j acc = .result (i + 1) := by
  intro j acc hj hacc
  obtain ⟨d, hd⟩ : ∃ d, i - j = d := ⟨_, rfl⟩
  induction d generalizing j acc with
  | zero =>
    have hji : j = i := by omega
    subst hji
    have hfuel : b.length - j = (b.length - (j + 1)) + 1 := by omega
    rw [hfuel, runReduce]
    have hcond : (jsGtOpt (some p) (b.getD j 0) &&
        jsLeOpt (some p) (b.getD (j + 1) 0)) = true := by
      simp only [jsGtOpt, jsLeOpt, Bool.and_eq_true, decide_eq_true_eq]
      exact ⟨hlo, hhi⟩
    have hstep : classStep b (some p) acc j = .result (j + 1) := by
      rw [classStep_eval_mid hacc hi (hz (j + 1) hi (by omega)), hcond]
      rfl
    rw [hstep]
    apply runReduce_fixed
    intro k
    exact classStep_truthy (by simp [JsAccN.truthy])
  | succ d ih =>
    have hji : j < i := by omega
    have hjlen : j + 1 < b.length := by omega
    have hfuel : b.length - j = (b.length - (j + 1)) + 1 := by omega
    rw [hfuel, runReduce]
    have hcond : (jsGtOpt (some p) (b.getD j 0) &&
        jsLeOpt (some p) (b.getD (j + 1) 0)) = false := by
      have hle : b.getD (j + 1) 0 ≤ b.getD i 0 :=
        chain_getD_le hasc (j + 1) i (by omega) (by omega)
      have hnle : ¬p ≤ b.getD (j + 1) 0 := by linarith
      have h2 : jsLeOpt (some p) (b.getD (j + 1) 0) = false := by
        simp only [jsLeOpt]
        exact decide_eq_false hnle
      rw [h2, Bool.and_false]
    have hstep : classStep b (some p) acc j = .undefined := by
      rw [classStep_eval_mid hacc hjlen (hz (j + 1) hjlen (by omega)), hcond]
      rfl
    rw [hstep]
    exact ih (j + 1) .undefined (by omega) rfl (by omega)

/-- The matching case of `getClassForRanges` (present price inside an
interior interval): the 1-based index `i + 1` is returned. -/
lemma getClassForRanges_match {b : List ℚ} {p : ℚ} {i : ℕ}
    (hasc : List.Chain' (· < ·) b)
    (hz : ∀ j < b.length, 0 < j → b.getD j 0 ≠ 0)
    (hi : i + 1 < b.length)
    (hlo : b.getD i 0 < p) (hhi : p ≤ b.getD (i + 1) 0) :
    getClassForRanges b (some p) = some (i + 1) := by
  have h := runReduce_class_match hasc hz hi hlo hhi 0 .null (Nat.zero_le i) rfl
  rw [Nat.sub_zero] at h
  rw [getClassForRanges, h]
  rfl

/-- Core lemma for the all-miss case of the class reduce: when no interior
interval test succeeds, the scan falls through to the last index and
returns `b.length`. -/
lemma runReduce_class_miss {b : List ℚ} {p : Option ℚ}
    (hz : ∀ j < b.length, 0 < j → b.getD j 0 ≠ 0)
    (hmiss : ∀ j, j + 1 < b.length →
      (jsGtOpt p (b.getD j 0) && jsLeOpt p (b.getD (j + 1) 0)) = false) :
    ∀ j acc, j < b.length → acc.truthy = false →
      runReduce (classStep b p) (b.length - j) j acc = .result b.length := by
  intro j acc hj hacc
  obtain ⟨d, hd⟩ : ∃ d, b.length - 1 - j = d := ⟨_, rfl⟩
  induction d generalizing j acc with
  | zero =>
    have hj1 : j + 1 = b.length := by omega
    have hfuel : b.length - j = 1 := by omega
    rw [hfuel, runReduce, runReduce]
    rw [classStep_eval_last hacc (by omega), hj1]
  | succ d ih =>
    have hjlen : j + 1 < b.length := by omega
    have hfuel : b.length - j = (b.length - (j + 1)) + 1 := by omega
    rw [hfuel, runReduce]
    have hstep : classStep b p acc j = .undefined := by
      rw [classStep_eval_mid hacc hjlen (hz (j + 1) hjlen (by omega)),
        hmiss j hjlen]
      rfl
    rw [hstep]
    exact ih (j + 1) .undefined (by omega) rfl (by omega)

/-- `getClassForRanges` with an absent price: every interval test is a
comparison against `undefined`, hence false, and the scan returns the
table length. -/
lemma getClassForRanges_none {b : List ℚ}
    (hz : ∀ j < b.length, 0 < j → b.getD j 0 ≠ 0) (hne : b ≠ []) :
    getClassForRanges b none = some b.length := by
  have hlen : 0 < b.length := List.length_pos.mpr hne
  have h := @runReduce_class_miss b none hz (fun j _ => rfl) 0 .null hlen rfl
  rw [Nat.sub_zero] at h
  rw [getClassForRanges, h]
  rfl

/-- `getClassForRanges` with a price above every boundary: the scan
returns the table length (the open-ended last class). -/
lemma getClassForRanges_exceed {b : List ℚ} {p : ℚ}
    (hz : ∀ j < b.length, 0 < j → b.getD j 0 ≠ 0) (hne : b ≠ [])
    (hex : ∀ j < b.length, b.getD j 0 < p) :
    getClassForRanges b (some p) = some b.length := by
  have hlen : 0 < b.length := List.length_pos.mpr hne
  have hmiss : ∀ j, j + 1 < b.length →
      (jsGtOpt (some p) (b.getD j 0) && jsLeOpt (some p) (b.getD (j + 1) 0)) = false := by
    intro j hj
    have hlt : b.getD (j + 1) 0 < p := hex (j + 1) hj
    have hnle : ¬p ≤ b.getD (j + 1) 0 := by linarith
    have h2 : jsLeOpt (some p) (b.getD (j + 1) 0) = false := by
      simp only [jsLeOpt]
      exact decide_eq_false hnle
    rw [h2, Bool.and_false]
  have h := runReduce_class_miss hz hmiss 0 .null hlen rfl
  rw [Nat.sub_zero] at h
  rw [getClassForRanges, h]
  rfl

/-- For a nonempty table the class reduce always produces a positive
index: the last callback's `!upperBound` branch catches everything. -/
lemma getClassForRanges_isSome {b : List ℚ} (p : Option ℚ) (hne : b ≠ []) :
    ∃ k, 0 < k ∧ getClassForRanges b p = some k := by
  have hlen : 0 < b.length := List.length_pos.mpr hne
  suffices h : ∀ j acc, j < b.length → acc.truthy = false →
      ∃ k, 0 < k ∧ runReduce (classStep b p) (b.length - j) j acc = .result k by
    obtain ⟨k, hk, hrun⟩ := h 0 .null hlen rfl
    rw [Nat.sub_zero] at hrun
    exact ⟨k, hk, by rw [getClassForRanges, hrun]; rfl⟩
  intro j acc hj hacc
  obtain ⟨d, hd⟩ : ∃ d, b.length - 1 - j = d := ⟨_, rfl⟩
  induction d generalizing j acc with
  | zero =>
    have hfuel : b.length - j = 1 := by omega
    rw [hfuel, runReduce, runReduce]
    exact ⟨j + 1, by omega, classStep_eval_last hacc (by omega)⟩
  | succ d ih =>
    have hjlen : j + 1 < b.length := by omega
    have hfuel : b.length - j = (b.length - (j + 1)) + 1 := by omega
    rw [hfuel, runReduce]
    rcases hstep : classStep b p acc j with _ | _ | n
    · exact absurd hstep (by
        rw [classStep, hacc]
        simp only [Bool.false_eq_true, if_false]
        cases hup : b.get? (j + 1) with
        | none => simp
        | some u =>
          show (if u = 0 then JsAccN.result (j + 1)
                else if jsGtOpt p (b.getD j 0) && jsLeOpt p u then
                  JsAccN.result (j + 1)
                else JsAccN.undefined) ≠ JsAccN.null
          split
          · simp
          · split <;> simp)
    · exact ih (j + 1) .undefined (by omega) rfl (by omega)
    · have hn : 0 < n := by
        by_contra hzero
        have hn0 : n = 0 := by omega
        subst hn0
        revert hstep
        rw [classStep, hacc]
        simp only [Bool.false_eq_true, if_false]
        cases hup : b.get? (j + 1) with
        | none => simp
        | some u =>
          show (if u = 0 then JsAccN.result (j + 1)
                else if jsGtOpt p (b.getD j 0) && jsLeOpt p u then
                  JsAccN.result (j + 1)
                else JsAccN.undefined) = JsAccN.result 0 → False
          split
          · simp
          · split <;> simp
      refine ⟨n, hn, ?_⟩
      apply runReduce_fixed
      intro k
      exact classStep_truthy (by simp [JsAccN.truthy]; omega)

/-! ### The spec's description of the per-category class index -/

/-- Helper for `classIndexSpec`: scan the boundary intervals left to
right, carrying the 1-based index of the interval under inspection. -/
def classIndexSpecAux (p : ℚ) : List ℚ → ℕ → ℕ
  | l :: u :: rest, k =>
    if l < p ∧ p ≤ u then k else classIndexSpecAux p (u :: rest) (k + 1)
  | _, k => k

/-- The per-category class index in the words of the spec and of claims
C5/C9: "the 1-based index of the first boundary interval with
`lower < price <= upper`, or the last index when the price exceeds all
upper boundaries". This definition follows the spec's words, to be
compared with the source-derived `getClassForRanges`. -/
def classIndexSpec (b : List ℚ) (p : ℚ) : ℕ := classIndexSpecAux p b 1

/-- The spec-side index on a matching interval. -/
lemma classIndexSpecAux_match {p : ℚ} :
    ∀ (b : List ℚ) (k i : ℕ), List.Chain' (· < ·) b → i + 1 < b.length →
      b.getD i 0 < p → p ≤ b.getD (i + 1) 0 →
      classIndexSpecAux p b k = k + i := by
  intro b
  induction b with
  | nil => intro k i _ hi; simp at hi
  | cons l rest ih =>
    intro k i hasc hi hlo hhi
    cases rest with
    | nil => simp at hi
    | cons u rs =>
      rcases List.chain'_cons.mp hasc with ⟨hlu, htail⟩
      cases i with
      | zero =>
        have hc : l < p ∧ p ≤ u := by
          constructor
          · simpa using hlo
          · simpa using hhi
        simp [classIndexSpecAux, hc]
      | succ i' =>
        have hup : u < p := by
          have h1 : (l :: u :: rs).getD 1 0 ≤ (l :: u :: rs).getD (i' + 1) 0 :=
            chain_getD_le hasc 1 (i' + 1) (by omega) (by omega)
          simp only [List.getD_cons_succ, List.getD_cons_zero] at h1
          have h2 : (l :: u :: rs).getD (i' + 1) 0 < p := hlo
          simp only [List.getD_cons_succ] at h2
          calc u ≤ (u :: rs).getD i' 0 := by simpa using h1
            _ < p := h2
        have hc : ¬(l < p ∧ p ≤ u) := by
          rintro ⟨-, hpu⟩
          linarith
        rw [classIndexSpecAux, if_neg hc]
        have := ih (k + 1) i' htail (by simpa using hi) (by simpa using hlo)
          (by simpa using hhi)
        rw [this]
        omega

/-- The spec-side index when the price exceeds every boundary. -/
lemma classIndexSpecAux_exceed {p : ℚ} :
    ∀ (b : List ℚ) (k : ℕ), b ≠ [] → (∀ j < b.length, b.getD j 0 < p) →
      classIndexSpecAux p b k = k + (b.length - 1) := by
  intro b
  induction b with
  | nil => intro k h; exact absurd rfl h
  | cons l rest ih =>
    intro k _ hex
    cases rest with
    | nil => simp [classIndexSpecAux]
    | cons u rs =>
      have hup : u < p := by
        have := hex 1 (by simp)
        simpa using this
      have hc : ¬(l < p ∧ p ≤ u) := by
        rintro ⟨-, hpu⟩
        linarith
      rw [classIndexSpecAux, if_neg hc]
      have hex' : ∀ j < (u :: rs).length, (u :: rs).getD j 0 < p := by
        intro j hj
        have := hex (j + 1) (by simpa using hj)
        simpa using this
      rw [ih (k + 1) (by simp) hex']
      simp only [List.length_cons]
      omega

/-- The cases in which the claims describe the class index: the price lies
in some interior interval, or exceeds every boundary. -/
def coveredBy (b : List ℚ) (p : ℚ) : Prop :=
  (∃ i, i + 1 < b.length ∧ b.getD i 0 < p ∧ p ≤ b.getD (i + 1) 0) ∨
  (∀ j < b.length, b.getD j 0 < p)

/-- On a good table and a covered price, the code's `getClassForRanges`
computes exactly the class index described by the spec. -/
lemma class_eq_spec {b : List ℚ} {p : ℚ} (hg : goodTable b)
    (hc : coveredBy b p) :
    getClassForRanges b (some p) = some (classIndexSpec b p) := by
  obtain ⟨hasc, hne, hz⟩ := hg
  rcases hc with ⟨i, hi, hlo, hhi⟩ | hex
  · rw [getClassForRanges_match hasc hz hi hlo hhi, classIndexSpec,
      classIndexSpecAux_match b 1 i hasc hi hlo hhi]
    congr 1
    omega
  · rw [getClassForRanges_exceed hz hne hex, classIndexSpec,
      classIndexSpecAux_exceed b 1 hne hex]
    have : 0 < b.length := List.length_pos.mpr hne
    congr 1
    omega

/-- Executable check for strict ascent (the library `Chain'` instance does
not kernel-reduce, so concrete witnesses go through this function). -/
def ascChainB : List ℚ → Bool
  | [] => true
  | [_] => true
  | x :: y :: rest => decide (x < y) && ascChainB (y :: rest)

/-- Soundness of `ascChainB`. -/
lemma chain'_of_ascChainB : ∀ {b : List ℚ}, ascChainB b = true →
    List.Chain' (· < ·) b := by
  intro b
  induction b with
  | nil => intro _; exact List.chain'_nil
  | cons x rest ih =>
    cases rest with
    | nil => intro _; simp
    | cons y rs =>
      intro h
      rw [ascChainB] at h
      simp only [Bool.and_eq_true, decide_eq_true_eq] at h
      exact List.chain'_cons.mpr ⟨h.1, ih h.2⟩

/-- Executable check that no boundary past the head is zero. -/
def tailNonzeroB : List ℚ → Bool
  | [] => true
  | _ :: rest => rest.all (fun x => decide (x ≠ 0))

/-- Soundness of `tailNonzeroB`. -/
lemma tailNonzero_of_all : ∀ {b : List ℚ}, tailNonzeroB b = true →
    ∀ j < b.length, 0 < j → b.getD j 0 ≠ 0 := by
  intro b
  cases b with
  | nil => intro _ j hj; simp at hj
  | cons a rest =>
    intro h j hj hj0
    obtain ⟨j', rfl⟩ : ∃ j', j = j' + 1 := ⟨j - 1, by omega⟩
    rw [List.getD_cons_succ]
    have hlt : j' < rest.length := by simpa using hj
    have hmem : rest.getD j' 0 ∈ rest :=
      List.get?_mem (get?_of_lt hlt)
    rw [tailNonzeroB, List.all_eq_true] at h
    simpa using h _ hmem

/-- Executable entry to `goodTable`. -/
lemma goodTable_of {b : List ℚ} (h1 : ascChainB b = true) (h2 : b ≠ [])
    (h3 : tailNonzeroB b = true) : goodTable b :=
  ⟨chain'_of_ascChainB h1, h2, tailNonzero_of_all h3⟩

/-! ### Shape lemmas for the serializer/deserializer stages -/

/-- A stored coordinates value: absent, or in GeoJSON point form. (On the
labeled client form `deserialize` throws before the config lookup.) -/
def storedCoordB : Option CoordVal → Bool
  | none => true
  | some (.point _ _) => true
  | some (.labeled _ _) => false

/-- `serializeRename` writes only the two identifier keys. -/
lemma serializeRename_shape (d : Venue) :
    ∃ m i, serializeRename d = { d with mongoId := m, id := i } := by
  rw [serializeRename]
  split
  · exact ⟨d.id, none, rfl⟩
  · exact ⟨d.mongoId, d.id, rfl⟩

/-- `serializePriceClass` writes only the `priceClass` key. -/
lemma serializePriceClass_shape (d : Venue) (c? : Option CityConfig) :
    ∃ pc, serializePriceClass d c? = { d with priceClass := pc } := by
  cases hp : d.prices with
  | none =>
    refine ⟨d.priceClass, ?_⟩
    cases c? <;> simp [serializePriceClass, hp] <;> rw [← hp]
  | some pr =>
    cases c? with
    | none =>
      refine ⟨d.priceClass, ?_⟩
      simp [serializePriceClass, hp]
      rw [← hp]
    | some conf =>
      exact ⟨some (getPriceClass pr conf), by simp [serializePriceClass, hp]⟩

/-- With no `prices` key, `serializePriceClass` is the identity. -/
lemma serializePriceClass_no_prices (d : Venue) (c? : Option CityConfig)
    (hp : d.prices = none) : serializePriceClass d c? = d := by
  cases c? <;> simp [serializePriceClass, hp]

/-- `serializeCoords` writes only the `location` key. -/
lemma serializeCoords_shape (d : Venue) :
    ∃ l, serializeCoords d = { d with location := l } := by
  rw [serializeCoords]
  split
  · exact ⟨d.location, rfl⟩
  · split
    · exact ⟨d.location, rfl⟩
    · exact ⟨_, rfl⟩

/-- What `serializeCoords` does to a present `location`. -/
lemma serializeCoords_location (d : Venue) (loc : Location)
    (h : d.location = some loc) :
    ∃ loc2, (serializeCoords d).location = some loc2 ∧
      loc2.country = loc.country ∧ loc2.city = loc.city ∧
      loc2.address = loc.address ∧ storedCoordB loc2.coordinates = true ∧
      (loc.coordinates = none → loc2 = loc) ∧
      ∀ cv, loc.coordinates = some cv →
        loc2.coordinates = some (.point "Point" [cv.jsLongitude, cv.jsLatitude]) := by
  cases hc : loc.coordinates with
  | none =>
    refine ⟨loc, ?_, rfl, rfl, rfl, ?_, fun _ => rfl, fun cv hcv => ?_⟩
    · simp [serializeCoords, h, hc]
    · rw [hc]; rfl
    · simp [hc] at hcv
  | some cv0 =>
    refine ⟨{ loc with coordinates := some (.point "Point" [cv0.jsLongitude, cv0.jsLatitude]) },
      ?_, rfl, rfl, rfl, rfl, fun hn => ?_, fun cv hcv => ?_⟩
    · simp [serializeCoords, h, hc]
    · simp [hc] at hn
    · cases Option.some.inj hcv
      rfl

/-- `serializeQueryText` succeeds when `queryText` is truthy or `name` is
present. -/
lemma serializeQueryText_ok_of (d : Venue)
    (h : jsTruthyStr d.queryText = true ∨ d.name ≠ none) :
    ∃ doc, serializeQueryText d = .ok doc := by
  rw [serializeQueryText]
  by_cases hq : jsTruthyStr d.queryText = true
  · rw [if_pos hq]; exact ⟨d, rfl⟩
  · rw [if_neg hq]
    rcases h with h | h
    · exact absurd h hq
    · cases hn : d.name with
      | none => exact absurd hn h
      | some n => exact ⟨_, rfl⟩

/-- On success `serializeQueryText` writes only the `queryText` key. -/
lemma serializeQueryText_ok_shape (d doc : Venue)
    (h : serializeQueryText d = .ok doc) :
    ∃ q, doc = { d with queryText := q } := by
  rw [serializeQueryText] at h
  by_cases hq : jsTruthyStr d.queryText = true
  · rw [if_pos hq] at h
    cases h
    exact ⟨d.queryText, rfl⟩
  · rw [if_neg hq] at h
    cases hn : d.name with
    | none => rw [hn] at h; cases h
    | some n => rw [hn] at h; cases h; exact ⟨some (unidecode n), rfl⟩

/-- `deserializeImages` writes only the `images` key. -/
lemma deserializeImages_shape (v : Venue) :
    ∃ im, deserializeImages v = { v with images := im } := by
  rw [deserializeImages]
  split
  · exact ⟨_, rfl⟩
  · exact ⟨v.images, rfl⟩

/-- `deserializeComputed` writes only the three computed keys. -/
lemma deserializeComputed_shape (caps : List ℚ) (conf : CityConfig) (x : Venue) :
    ∃ cr er cur, deserializeComputed caps conf x =
      { x with capacityRange := cr, entranceFeeRange := er, currency := cur } := by
  by_cases hc : jsTruthyNum x.capacity = true
  · cases hfees : x.fees with
    | none =>
      exact ⟨some (rangeBucket caps (x.capacity.getD 0)), x.entranceFeeRange,
        x.currency, by simp [deserializeComputed, hc, hfees]⟩
    | some fees =>
      by_cases he : jsTruthyNum fees.entrance = true
      · exact ⟨some (rangeBucket caps (x.capacity.getD 0)),
          some (rangeBucket conf.entranceFeeRanges (fees.entrance.getD 0)),
          some conf.currency, by simp [deserializeComputed, hc, hfees, he]⟩
      · exact ⟨some (rangeBucket caps (x.capacity.getD 0)), x.entranceFeeRange,
          some conf.currency, by simp [deserializeComputed, hc, hfees, he]⟩
  · cases hfees : x.fees with
    | none =>
      refine ⟨x.capacityRange, x.entranceFeeRange, x.currency, ?_⟩
      simp [deserializeComputed, hc, hfees]
      rw [← hfees]
    | some fees =>
      by_cases he : jsTruthyNum fees.entrance = true
      · exact ⟨x.capacityRange,
          some (rangeBucket conf.entranceFeeRanges (fees.entrance.getD 0)),
          some conf.currency, by simp [deserializeComputed, hc, hfees, he]⟩
      · exact ⟨x.capacityRange, x.entranceFeeRange, some conf.currency,
          by simp [deserializeComputed, hc, hfees, he]⟩

/-- With no `capacity`, `deserializeComputed` leaves `capacityRange`
alone. -/
lemma deserializeComputed_no_capacity (caps : List ℚ) (conf : CityConfig)
    (x : Venue) (h : x.capacity = none) :
    (deserializeComputed caps conf x).capacityRange = x.capacityRange := by
  have hc : jsTruthyNum x.capacity = false := by rw [h]; rfl
  cases hfees : x.fees with
  | none => simp [deserializeComputed, hc, hfees]
  | some fees =>
    by_cases he : jsTruthyNum fees.entrance = true
    · simp [deserializeComputed, hc, hfees, he]
    · simp [deserializeComputed, hc, hfees, he]

/-- With no `fees`, `deserializeComputed` leaves `currency` and
`entranceFeeRange` alone. -/
lemma deserializeComputed_no_fees (caps : List ℚ) (conf : CityConfig)
    (x : Venue) (h : x.fees = none) :
    (deserializeComputed caps conf x).currency = x.currency ∧
    (deserializeComputed caps conf x).entranceFeeRange = x.entranceFeeRange := by
  by_cases hc : jsTruthyNum x.capacity = true
  · constructor <;> simp [deserializeComputed, hc, h]
  · constructor <;> simp [deserializeComputed, hc, h]

/-- What `decodeCoords` produces on a stored (non-labeled) value. -/
lemma decodeCoords_spec (loc : Location)
    (hst : storedCoordB loc.coordinates = true) :
    ∃ loc2, decodeCoords loc = .ok loc2 ∧ loc2.country = loc.country ∧
      loc2.city = loc.city ∧ loc2.address = loc.address ∧
      (loc.coordinates = none → loc2 = loc) ∧
      ∀ t cs, loc.coordinates = some (.point t cs) →
        loc2.coordinates = some (.labeled (cs.get? 0).join (cs.get? 1).join) := by
  cases hc : loc.coordinates with
  | none =>
    refine ⟨loc, ?_, rfl, rfl, rfl, fun _ => rfl, fun t cs hcv => ?_⟩
    · simp [decodeCoords, hc]
    · simp [hc] at hcv
  | some cv =>
    cases cv with
    | labeled lo la => rw [hc] at hst; simp [storedCoordB] at hst
    | point t0 cs0 =>
      refine ⟨{ loc with coordinates := some (.labeled (cs0.get? 0).join (cs0.get? 1).join) },
        ?_, rfl, rfl, rfl, fun hn => ?_, fun t cs hcv => ?_⟩
      · simp [decodeCoords, hc]
      · simp [hc] at hn
      · cases Option.some.inj hcv
        rfl

/-- A successful `serialize` decomposes into a successful config
resolution followed by the three writing stages. -/
lemma serialize_ok_destruct (f : Option String → Option String → Option CityConfig)
    (p doc : Venue) (h : serialize f p = .ok doc) :
    ∃ c?, serializeConf f (serializeRename p) = .ok c? ∧
      serializeQueryText (serializeCoords
        (serializePriceClass (serializeRename p) c?)) = .ok doc := by
  simp only [serialize] at h
  split at h
  · simp at h
  · exact ⟨_, by assumption, h⟩

/-- A successful `serialize` passes every non-written field through. -/
lemma serialize_ok_frame (f : Option String → Option String → Option CityConfig)
    (p doc : Venue) (h : serialize f p = .ok doc) :
    doc.name = p.name ∧ doc.description = p.description ∧
    doc.capacity = p.capacity ∧ doc.fees = p.fees ∧ doc.prices = p.prices ∧
    doc.images = p.images ∧ doc.sourceId = p.sourceId ∧
    doc.capacityRange = p.capacityRange ∧
    doc.entranceFeeRange = p.entranceFeeRange ∧ doc.currency = p.currency := by
  obtain ⟨c?, hconf, hq⟩ := serialize_ok_destruct f p doc h
  obtain ⟨m, i, hren⟩ := serializeRename_shape p
  obtain ⟨pc, hpc⟩ := serializePriceClass_shape (serializeRename p) c?
  obtain ⟨l, hco⟩ := serializeCoords_shape (serializePriceClass (serializeRename p) c?)
  obtain ⟨q, hdoc⟩ := serializeQueryText_ok_shape _ _ hq
  rw [hdoc, hco, hpc, hren]
  exact ⟨rfl, rfl, rfl, rfl, rfl, rfl, rfl, rfl, rfl, rfl⟩

/-- With no `prices`, a successful `serialize` leaves `priceClass` alone. -/
lemma serialize_ok_priceClass (f : Option String → Option String → Option CityConfig)
    (p doc : Venue) (h : serialize f p = .ok doc) (hp : p.prices = none) :
    doc.priceClass = p.priceClass := by
  obtain ⟨c?, hconf, hq⟩ := serialize_ok_destruct f p doc h
  obtain ⟨m, i, hren⟩ := serializeRename_shape p
  have hp1 : (serializeRename p).prices = none := by rw [hren]; exact hp
  rw [serializePriceClass_no_prices _ _ hp1] at hq
  obtain ⟨l, hco⟩ := serializeCoords_shape (serializeRename p)
  obtain ⟨q, hdoc⟩ := serializeQueryText_ok_shape _ _ hq
  rw [hdoc, hco, hren]

/-- What a successful `serialize` does to a present `location`. -/
lemma serialize_ok_location (f : Option String → Option String → Option CityConfig)
    (p doc : Venue) (loc : Location)
    (h : serialize f p = .ok doc) (hloc : p.location = some loc) :
    ∃ loc2, doc.location = some loc2 ∧ loc2.country = loc.country ∧
      loc2.city = loc.city ∧ loc2.address = loc.address ∧
      storedCoordB loc2.coordinates = true ∧
      (loc.coordinates = none → loc2 = loc) ∧
      ∀ cv, loc.coordinates = some cv →
        loc2.coordinates = some (.point "Point" [cv.jsLongitude, cv.jsLatitude]) := by
  obtain ⟨c?, hconf, hq⟩ := serialize_ok_destruct f p doc h
  obtain ⟨m, i, hren⟩ := serializeRename_shape p
  obtain ⟨pc, hpc⟩ := serializePriceClass_shape (serializeRename p) c?
  have hd2loc : (serializePriceClass (serializeRename p) c?).location = some loc := by
    rw [hpc, hren]; exact hloc
  obtain ⟨loc2, hl2, hco2, hci2, had2, hst2, hnone2, hpoint2⟩ :=
    serializeCoords_location _ loc hd2loc
  obtain ⟨q, hdoc⟩ := serializeQueryText_ok_shape _ _ hq
  refine ⟨loc2, ?_, hco2, hci2, had2, hst2, hnone2, hpoint2⟩
  rw [hdoc]
  exact hl2

/-- `serialize` succeeds whenever the config resolves for the payload's
location and a `queryText` can be produced. -/
lemma serialize_ok_of (f : Option String → Option String → Option CityConfig)
    (p : Venue) (loc : Location) (conf : CityConfig)
    (hloc : p.location = some loc) (hcc : jsTruthyStr loc.country = true)
    (hci : jsTruthyStr loc.city = true) (hf : f loc.country loc.city = some conf)
    (hname : jsTruthyStr p.queryText = true ∨ p.name ≠ none) :
    ∃ doc, serialize f p = .ok doc := by
  obtain ⟨m, i, hren⟩ := serializeRename_shape p
  have hconf : serializeConf f (serializeRename p) = .ok (some conf) := by
    have hl1 : (serializeRename p).location = some loc := by rw [hren]; exact hloc
    simp [serializeConf, hl1, hcc, hci, hf]
  obtain ⟨pc, hpc⟩ := serializePriceClass_shape (serializeRename p) (some conf)
  obtain ⟨l, hco⟩ :=
    serializeCoords_shape (serializePriceClass (serializeRename p) (some conf))
  have hq : jsTruthyStr (serializeCoords
        (serializePriceClass (serializeRename p) (some conf))).queryText = true ∨
      (serializeCoords (serializePriceClass (serializeRename p) (some conf))).name ≠ none := by
    rw [hco, hpc, hren]
    exact hname
  obtain ⟨doc, hdoc⟩ := serializeQueryText_ok_of _ hq
  refine ⟨doc, ?_⟩
  simp only [serialize]
  rw [hconf]
  exact hdoc

/-- A successful `deserialize` is `deserializeComputed` applied to the
renamed, image-transformed document with its location decoded. -/
lemma deserialize_eq_computed (f : Option String → Option String → Option CityConfig)
    (caps : List ℚ) (v : Venue) (loc : Location) (conf : CityConfig)
    (hloc : v.location = some loc) (hst : storedCoordB loc.coordinates = true)
    (hf : f loc.country loc.city = some conf) :
    ∃ loc2, loc2.country = loc.country ∧ loc2.city = loc.city ∧
      loc2.address = loc.address ∧
      (loc.coordinates = none → loc2 = loc) ∧
      (∀ t cs, loc.coordinates = some (.point t cs) →
        loc2.coordinates = some (.labeled (cs.get? 0).join (cs.get? 1).join)) ∧
      deserialize f caps v = .ok (deserializeComputed caps conf
        { deserializeImages (deserializeRename v) with location := some loc2 }) := by
  obtain ⟨loc2, hdec, hco, hci, had, hnone, hpoint⟩ := decodeCoords_spec loc hst
  refine ⟨loc2, hco, hci, had, hnone, hpoint, ?_⟩
  have hv2loc : (deserializeImages (deserializeRename v)).location = some loc := by
    obtain ⟨im, him⟩ := deserializeImages_shape (deserializeRename v)
    rw [him]
    exact hloc
  have hf2 : f loc2.country loc2.city = some conf := by rw [hco, hci]; exact hf
  simp [deserialize, hv2loc, hdec, hf2]

/-- `deserializeImages` passes every other field through. -/
lemma deserializeImages_frame (v : Venue) :
    (deserializeImages v).name = v.name ∧
    (deserializeImages v).description = v.description ∧
    (deserializeImages v).capacity = v.capacity ∧
    (deserializeImages v).fees = v.fees ∧
    (deserializeImages v).prices = v.prices ∧
    (deserializeImages v).location = v.location := by
  obtain ⟨im, him⟩ := deserializeImages_shape v
  rw [him]
  exact ⟨rfl, rfl, rfl, rfl, rfl, rfl⟩

/-- `deserializeComputed` passes every non-computed field through. -/
lemma deserializeComputed_frame (caps : List ℚ) (conf : CityConfig) (x : Venue) :
    (deserializeComputed caps conf x).name = x.name ∧
    (deserializeComputed caps conf x).description = x.description ∧
    (deserializeComputed caps conf x).capacity = x.capacity ∧
    (deserializeComputed caps conf x).fees = x.fees ∧
    (deserializeComputed caps conf x).prices = x.prices ∧
    (deserializeComputed caps conf x).location = x.location := by
  obtain ⟨cr, er, cur, hsh⟩ := deserializeComputed_shape caps conf x
  rw [hsh]
  exact ⟨rfl, rfl, rfl, rfl, rfl, rfl⟩

/-! ### Claim theorems -/

/-- C1: the claim — and the spec — say that for a value at or below the
first boundary the bucketer returns `null`; the code does not. At the
spec's own example, boundaries `[0, 50, 100]` and value `0`, every
interval test fails, so the reduce reaches the last index, where the
`!upperBound` branch returns the bare last boundary `100` (the open-ended
top bucket) instead of `null`. This theorem evaluates the embedded code at
that failing input. -/
theorem C1_value_below_first_boundary_eval :
    rangeBucket [0, 50, 100] 0 = some (.single 100) ∧
    rangeBucket [0, 50, 100] 0 ≠ none := by decide

/-- C4 counterexample: the claim quantifies over every ascending boundary
list, but a zero boundary past the head is JS-falsy, so the `!upperBound`
branch ends the scan early. With boundaries `[-2, 0]` and value `-1` the
match `b[0] < v ≤ b[1]` holds at `i = 0`, yet the bucketer returns the
bare boundary `-2`, not the pair `[-2, 0]`. -/
theorem C4_counterexample :
    List.Chain' (· < ·) [(-2 : ℚ), 0] ∧
    [(-2 : ℚ), 0].getD 0 0 < -1 ∧ ((-1 : ℚ) ≤ [(-2 : ℚ), 0].getD 1 0) ∧
    rangeBucket [(-2 : ℚ), 0] (-1) ≠ some (.range (-2) 0) :=
  ⟨chain'_of_ascChainB (by decide), by decide, by decide, by decide⟩

/-- C4 (amended): for every strictly ascending boundary list none of whose
boundaries past the first is zero (in particular every ascending list of
nonnegative boundaries), and every value `v` with `b[i] < v ≤ b[i+1]`,
the bucketer returns the pair `[b[i], b[i+1]]` — lower-exclusive,
upper-inclusive, so a value equal to a boundary falls into the bucket
whose upper bound it is. (For an ascending list the matching `i` is
unique, hence the smallest.) -/
theorem C4_bucket_pair (b : List ℚ) (v : ℚ) (i : ℕ)
    (hasc : List.Chain' (· < ·) b)
    (hz : ∀ j < b.length, 0 < j → b.getD j 0 ≠ 0)
    (hi : i + 1 < b.length)
    (hlo : b.getD i 0 < v) (hhi : v ≤ b.getD (i + 1) 0) :
    rangeBucket b v = some (.range (b.getD i 0) (b.getD (i + 1) 0)) :=
  rangeBucket_match hasc hz hi hlo hhi

/-- Witness for C4 at the claim's own example: boundaries `[0, 50, 100]`,
value `75`, bucket `[50, 100]`. -/
theorem C4_bucket_pair_witness :
    rangeBucket [0, 50, 100] 75 = some (.range 50 100) := by
  have h := C4_bucket_pair [0, 50, 100] 75 1 (chain'_of_ascChainB (by decide))
    (tailNonzero_of_all (by decide)) (by decide) (by decide) (by decide)
  exact h

/-- C5: `getPriceClass` returns `null` when neither beverage price is
present; when both prices are present (on good tables, with each price
either inside an interior interval or above every boundary — the two
cases the claim describes), the result is the maximum of the two
per-category 1-based class indices in the spec's sense. -/
theorem C5_priceClass_max_of_indices :
    (∀ (conf : CityConfig) (pr : Prices), pr.coke = none → pr.beer = none →
      getPriceClass pr conf = none) ∧
    (∀ (conf : CityConfig) (pr : Prices) (pc pb : ℚ),
      pr.coke = some pc → pc ≠ 0 → pr.beer = some pb → pb ≠ 0 →
      goodTable conf.priceClassRanges.coke →
      goodTable conf.priceClassRanges.beer →
      coveredBy conf.priceClassRanges.coke pc →
      coveredBy conf.priceClassRanges.beer pb →
      getPriceClass pr conf =
        some (max (classIndexSpec conf.priceClassRanges.coke pc)
                  (classIndexSpec conf.priceClassRanges.beer pb))) := by
  constructor
  · intro conf pr hc hb
    simp [getPriceClass, hc, hb, jsTruthyNum]
  · intro conf pr pc pb hc hcne hb hbne hgc hgb hcc hcb
    have h1 : jsTruthyNum pr.coke = true := by
      rw [hc]; simp [jsTruthyNum, hcne]
    rw [getPriceClass, h1]
    simp only [Bool.not_true, Bool.false_and, Bool.false_eq_true, if_false]
    rw [hc, hb, class_eq_spec hgc hcc, class_eq_spec hgb hcb]
    rfl

/-- Witness for C5 at concrete inputs: both conjuncts applied to the city
configuration `{coke: [0,2,4], beer: [0,3,5]}`. -/
theorem C5_priceClass_max_of_indices_witness :
    getPriceClass ⟨none, none⟩ ⟨"EUR", ⟨[0, 2, 4], [0, 3, 5]⟩, [0, 5, 10]⟩ = none ∧
    getPriceClass ⟨some 3, some 4⟩ ⟨"EUR", ⟨[0, 2, 4], [0, 3, 5]⟩, [0, 5, 10]⟩ =
      some (max (classIndexSpec [0, 2, 4] 3) (classIndexSpec [0, 3, 5] 4)) := by
  constructor
  · exact C5_priceClass_max_of_indices.1 ⟨"EUR", ⟨[0, 2, 4], [0, 3, 5]⟩, [0, 5, 10]⟩
      ⟨none, none⟩ rfl rfl
  · exact C5_priceClass_max_of_indices.2 ⟨"EUR", ⟨[0, 2, 4], [0, 3, 5]⟩, [0, 5, 10]⟩
      ⟨some 3, some 4⟩ 3 4 rfl (by decide) rfl (by decide)
      (goodTable_of (by decide) (by decide) (by decide))
      (goodTable_of (by decide) (by decide) (by decide))
      (Or.inl ⟨1, by decide⟩) (Or.inl ⟨1, by decide⟩)

/-- C9: when exactly one beverage price is present, the absent category is
not excluded from the maximum: its class is the length of its boundary
table (the reduce's interval tests all compare against `undefined` and
fail, so the scan falls through to the final no-upper-bound branch), and
the resulting `priceClass` is the maximum of the present price's class and
that length. Stated for both choices of the present category. -/
theorem C9_absent_category_counts :
    (∀ (conf : CityConfig) (pr : Prices) (pb : ℚ),
      pr.coke = none → pr.beer = some pb → pb ≠ 0 →
      goodTable conf.priceClassRanges.coke →
      conf.priceClassRanges.beer ≠ [] →
      getClassForRanges conf.priceClassRanges.coke none =
        some conf.priceClassRanges.coke.length ∧
      ∃ k, 0 < k ∧
        getClassForRanges conf.priceClassRanges.beer (some pb) = some k ∧
        getPriceClass pr conf =
          some (max k conf.priceClassRanges.coke.length)) ∧
    (∀ (conf : CityConfig) (pr : Prices) (pc : ℚ),
      pr.beer = none → pr.coke = some pc → pc ≠ 0 →
      goodTable conf.priceClassRanges.beer →
      conf.priceClassRanges.coke ≠ [] →
      getClassForRanges conf.priceClassRanges.beer none =
        some conf.priceClassRanges.beer.length ∧
      ∃ k, 0 < k ∧
        getClassForRanges conf.priceClassRanges.coke (some pc) = some k ∧
        getPriceClass pr conf =
          some (max k conf.priceClassRanges.beer.length)) := by
  constructor
  · intro conf pr pb hc hb hbne hgc hneB
    obtain ⟨hascC, hneC, hzC⟩ := hgc
    have habs := getClassForRanges_none hzC hneC
    refine ⟨habs, ?_⟩
    obtain ⟨k, hk, hbeer⟩ := getClassForRanges_isSome (some pb) hneB
    refine ⟨k, hk, hbeer, ?_⟩
    have h1 : jsTruthyNum pr.beer = true := by
      rw [hb]; simp [jsTruthyNum, hbne]
    rw [getPriceClass, h1]
    simp only [Bool.not_true, Bool.and_false, Bool.false_eq_true, if_false]
    rw [hc, hb, habs, hbeer]
    simp [jsMathMax, Nat.max_comm]
  · intro conf pr pc hb hc hcne hgb hneC
    obtain ⟨hascB, hneB, hzB⟩ := hgb
    have habs := getClassForRanges_none hzB hneB
    refine ⟨habs, ?_⟩
    obtain ⟨k, hk, hcoke⟩ := getClassForRanges_isSome (some pc) hneC
    refine ⟨k, hk, hcoke, ?_⟩
    have h1 : jsTruthyNum pr.coke = true := by
      rw [hc]; simp [jsTruthyNum, hcne]
    rw [getPriceClass, h1]
    simp only [Bool.not_true, Bool.false_and, Bool.false_eq_true, if_false]
    rw [hc, hb, habs, hcoke]
    simp [jsMathMax]

/-- Witness for C9: with coke table `[0, 2, 4]` and beer table
`[0, 3, 5]`, a lone beer price `4` (class `2`) yields
`priceClass = max 2 3 = 3`, and a lone coke price `3` (class `2`) yields
`priceClass = max 2 3 = 3`. -/
theorem C9_absent_category_counts_witness :
    (getClassForRanges [0, 2, 4] none = some 3 ∧
      ∃ k, 0 < k ∧ getClassForRanges [0, 3, 5] (some 4) = some k ∧
        getPriceClass ⟨none, some 4⟩ ⟨"EUR", ⟨[0, 2, 4], [0, 3, 5]⟩, [0, 5, 10]⟩ =
          some (max k 3)) ∧
    (getClassForRanges [0, 3, 5] none = some 3 ∧
      ∃ k, 0 < k ∧ getClassForRanges [0, 2, 4] (some 3) = some k ∧
        getPriceClass ⟨some 3, none⟩ ⟨"EUR", ⟨[0, 2, 4], [0, 3, 5]⟩, [0, 5, 10]⟩ =
          some (max k 3)) := by
  constructor
  · exact C9_absent_category_counts.1 ⟨"EUR", ⟨[0, 2, 4], [0, 3, 5]⟩, [0, 5, 10]⟩
      ⟨none, some 4⟩ 4 rfl rfl (by decide)
      (goodTable_of (by decide) (by decide) (by decide)) (by decide)
  · exact C9_absent_category_counts.2 ⟨"EUR", ⟨[0, 2, 4], [0, 3, 5]⟩, [0, 5, 10]⟩
      ⟨some 3, none⟩ 3 rfl rfl (by decide)
      (goodTable_of (by decide) (by decide) (by decide)) (by decide)

/-- C2 counterexample: `serialize` mutates the caller's payload. After
`serialize({name: "X"})` the caller's object has gained a `queryText` key
(the function writes through the caller's reference and takes no
snapshot), so it is no longer the object that was passed in. -/
theorem C2_counterexample :
    serializeCallerAfter (fun _ _ => none) { emptyVenue with name := some "X" } ≠
      { emptyVenue with name := some "X" } := by
  intro h
  have hq := congrArg Venue.queryText h
  exact absurd hq (by decide)

/-- C2 (amended): `deserialize` takes an independent snapshot before any
change and leaves the caller's stored object unmodified; `serialize`,
however, takes no snapshot and mutates its argument in place — after a
successful call the caller's payload is exactly the returned storage
document. -/
theorem C2_mutation_profile :
    (∀ (f : Option String → Option String → Option CityConfig)
      (caps : List ℚ) (v : Venue), deserializeCallerAfter f caps v = v) ∧
    (∀ (f : Option String → Option String → Option CityConfig) (d doc : Venue),
      serialize f d = .ok doc → serializeCallerAfter f d = doc) := by
  constructor
  · intro f caps v
    rfl
  · intro f d doc h
    rw [serializeCallerAfter, h]

/-- Witness for C2: a concrete deserialize call leaves the caller's value
unchanged, and a concrete successful serialize call leaves the caller
holding the produced document (with the added `queryText`). -/
theorem C2_mutation_profile_witness :
    deserializeCallerAfter (fun _ _ => none) []
        { emptyVenue with name := some "X" } =
      { emptyVenue with name := some "X" } ∧
    serializeCallerAfter (fun _ _ => none) { emptyVenue with name := some "X" } =
      { emptyVenue with name := some "X", queryText := some "X" } := by
  constructor
  · exact C2_mutation_profile.1 (fun _ _ => none) [] { emptyVenue with name := some "X" }
  · exact C2_mutation_profile.2 (fun _ _ => none)
      { emptyVenue with name := some "X" }
      { emptyVenue with name := some "X", queryText := some "X" } rfl

/-- C3 counterexample: the claim says `serialize({name: "X"})` yields
`queryText = "x"`; the code derives `queryText` with `unidecode`, which
strips accents but does not change case, so the document holds
`queryText = "X"`, not `"x"`. -/
theorem C3_counterexample :
    serialize (fun _ _ => none) { emptyVenue with name := some "X" } ≠
      .ok { emptyVenue with name := some "X", queryText := some "x" } := by
  intro heq
  have h : serialize (fun _ _ => none) { emptyVenue with name := some "X" } =
      .ok { emptyVenue with name := some "X", queryText := some "X" } := rfl
  rw [h] at heq
  have hv := Except.ok.inj heq
  have hq := congrArg Venue.queryText hv
  exact absurd hq (by decide)

/-- C3 (amended): `serialize` applied to the partial payload
`{name: "X"}` produces a document whose key set is exactly
`{name, queryText}` — no identifier, location, priceClass or any other
key is synthesized — with `name = "X"` and `queryText = "X"` (the
accent-stripping transform leaves plain ASCII, including its case,
unchanged). The config lookup is never consulted. -/
theorem C3_partial_payload_keys :
    ∀ f, serialize f { emptyVenue with name := some "X" } =
      .ok { emptyVenue with name := some "X", queryText := some "X" } :=
  fun _ => rfl

/-- C10: `deserialize` dereferences `venue.location` and resolves the
city config on every call, even when the venue has neither capacity nor
fees: a stored document without a `location` object throws a `TypeError`,
and a document whose `(country, city)` the lookup cannot resolve throws
`ConfigNotFoundError` even though no derived field would be computed. -/
theorem C10_location_always_dereferenced :
    (∀ (f : Option String → Option String → Option CityConfig)
      (caps : List ℚ) (v : Venue), v.location = none →
      deserialize f caps v = .error .typeError) ∧
    (∀ (f : Option String → Option String → Option CityConfig)
      (caps : List ℚ) (v : Venue) (loc : Location), v.location = some loc →
      storedCoordB loc.coordinates = true →
      f loc.country loc.city = none →
      deserialize f caps v = .error .configNotFound) := by
  constructor
  · intro f caps v hloc
    have hv2loc : (deserializeImages (deserializeRename v)).location = none := by
      obtain ⟨im, him⟩ := deserializeImages_shape (deserializeRename v)
      rw [him]; exact hloc
    simp [deserialize, hv2loc]
  · intro f caps v loc hloc hst hf
    obtain ⟨loc2, hdec, hco, hci, had, hnone, hpoint⟩ := decodeCoords_spec loc hst
    have hv2loc : (deserializeImages (deserializeRename v)).location = some loc := by
      obtain ⟨im, him⟩ := deserializeImages_shape (deserializeRename v)
      rw [him]; exact hloc
    have hf2 : f loc2.country loc2.city = none := by rw [hco, hci]; exact hf
    simp [deserialize, hv2loc, hdec, hf2]

/-- Witness for C10: a document with no location at all throws a
`TypeError`; a fee-less, capacity-less document whose city is unknown to
the lookup still throws `ConfigNotFoundError`. -/
theorem C10_location_always_dereferenced_witness :
    deserialize (fun _ _ => none) [] emptyVenue = .error .typeError ∧
    deserialize (fun _ _ => none) []
        { emptyVenue with location := some ⟨some "NL", some "Amsterdam", none, none⟩ } =
      .error .configNotFound := by
  constructor
  · exact C10_location_always_dereferenced.1 (fun _ _ => none) [] emptyVenue rfl
  · exact C10_location_always_dereferenced.2 (fun _ _ => none) [] _
      ⟨some "NL", some "Amsterdam", none, none⟩ rfl rfl rfl

/-- C8: absent optional inputs silently skip the derived-field
computation and never raise: with no `capacity` the view carries no
`capacityRange`; with no `fees` it carries no `currency` and no
`entranceFeeRange`; and with no `prices` a successful `serialize` attaches
no `priceClass`. -/
theorem C8_absent_optional_fields_skip :
    (∀ (f : Option String → Option String → Option CityConfig)
      (caps : List ℚ) (v : Venue) (loc : Location) (conf : CityConfig),
      v.location = some loc → storedCoordB loc.coordinates = true →
      f loc.country loc.city = some conf →
      v.capacity = none → v.capacityRange = none →
      ∃ view, deserialize f caps v = .ok view ∧ view.capacityRange = none) ∧
    (∀ (f : Option String → Option String → Option CityConfig)
      (caps : List ℚ) (v : Venue) (loc : Location) (conf : CityConfig),
      v.location = some loc → storedCoordB loc.coordinates = true →
      f loc.country loc.city = some conf →
      v.fees = none → v.currency = none → v.entranceFeeRange = none →
      ∃ view, deserialize f caps v = .ok view ∧
        view.currency = none ∧ view.entranceFeeRange = none) ∧
    (∀ (f : Option String → Option String → Option CityConfig) (p doc : Venue),
      p.prices = none → p.priceClass = none → serialize f p = .ok doc →
      doc.priceClass = none) := by
  refine ⟨?_, ?_, ?_⟩
  · intro f caps v loc conf hloc hst hf hcap hcr
    obtain ⟨loc2, hco, hci, had, hnone, hpoint, hrun⟩ :=
      deserialize_eq_computed f caps v loc conf hloc hst hf
    refine ⟨_, hrun, ?_⟩
    have hXcap : ({ deserializeImages (deserializeRename v) with
        location := some loc2 } : Venue).capacity = none := by
      obtain ⟨im, him⟩ := deserializeImages_shape (deserializeRename v)
      rw [him]; exact hcap
    have hXcr : ({ deserializeImages (deserializeRename v) with
        location := some loc2 } : Venue).capacityRange = none := by
      obtain ⟨im, him⟩ := deserializeImages_shape (deserializeRename v)
      rw [him]; exact hcr
    rw [deserializeComputed_no_capacity _ _ _ hXcap]
    exact hXcr
  · intro f caps v loc conf hloc hst hf hfees hcur her
    obtain ⟨loc2, hco, hci, had, hnone, hpoint, hrun⟩ :=
      deserialize_eq_computed f caps v loc conf hloc hst hf
    refine ⟨_, hrun, ?_⟩
    have hXfees : ({ deserializeImages (deserializeRename v) with
        location := some loc2 } : Venue).fees = none := by
      obtain ⟨im, him⟩ := deserializeImages_shape (deserializeRename v)
      rw [him]; exact hfees
    have hXcur : ({ deserializeImages (deserializeRename v) with
        location := some loc2 } : Venue).currency = none := by
      obtain ⟨im, him⟩ := deserializeImages_shape (deserializeRename v)
      rw [him]; exact hcur
    have hXer : ({ deserializeImages (deserializeRename v) with
        location := some loc2 } : Venue).entranceFeeRange = none := by
      obtain ⟨im, him⟩ := deserializeImages_shape (deserializeRename v)
      rw [him]; exact her
    obtain ⟨h1, h2⟩ := deserializeComputed_no_fees caps conf _ hXfees
    rw [h1, h2]
    exact ⟨hXcur, hXer⟩
  · intro f p doc hp hpc hser
    rw [serialize_ok_priceClass f p doc hser hp]
    exact hpc

/-- Witness for C8: a stored document with only a location gets a view
with none of the three computed keys (no error), and serializing
`{name: "X"}` attaches no `priceClass`. -/
theorem C8_absent_optional_fields_skip_witness :
    (∃ view, deserialize (fun _ _ => some ⟨"EUR", ⟨[0, 2, 4], [0, 3, 5]⟩, [0, 5, 10]⟩) []
        { emptyVenue with location := some ⟨some "NL", some "Amsterdam", none, none⟩ } =
        .ok view ∧ view.capacityRange = none) ∧
    (∃ view, deserialize (fun _ _ => some ⟨"EUR", ⟨[0, 2, 4], [0, 3, 5]⟩, [0, 5, 10]⟩) []
        { emptyVenue with location := some ⟨some "NL", some "Amsterdam", none, none⟩ } =
        .ok view ∧ view.currency = none ∧ view.entranceFeeRange = none) ∧
    ({ emptyVenue with name := some "X", queryText := some "X" } : Venue).priceClass = none := by
  refine ⟨?_, ?_, ?_⟩
  · exact C8_absent_optional_fields_skip.1 _ [] _
      ⟨some "NL", some "Amsterdam", none, none⟩
      ⟨"EUR", ⟨[0, 2, 4], [0, 3, 5]⟩, [0, 5, 10]⟩ rfl rfl rfl rfl rfl
  · exact C8_absent_optional_fields_skip.2.1 _ [] _
      ⟨some "NL", some "Amsterdam", none, none⟩
      ⟨"EUR", ⟨[0, 2, 4], [0, 3, 5]⟩, [0, 5, 10]⟩ rfl rfl rfl rfl rfl rfl
  · exact C8_absent_optional_fields_skip.2.2 (fun _ _ => none)
      { emptyVenue with name := some "X" } _ rfl rfl rfl

/-- A successful `deserialize` decomposes into a present location, a
successful coordinate decode and a successful config resolution. -/
lemma deserialize_ok_destruct (f : Option String → Option String → Option CityConfig)
    (caps : List ℚ) (v view : Venue) (h : deserialize f caps v = .ok view) :
    ∃ loc loc2 conf, (deserializeImages (deserializeRename v)).location = some loc ∧
      decodeCoords loc = .ok loc2 ∧ f loc2.country loc2.city = some conf ∧
      view = deserializeComputed caps conf
        { deserializeImages (deserializeRename v) with location := some loc2 } := by
  simp only [deserialize] at h
  split at h
  · simp at h
  · split at h
    · simp at h
    · split at h
      · simp at h
      · exact ⟨_, _, _, by assumption, by assumption, by assumption,
          (Except.ok.inj h).symm⟩

/-- C7: `serialize` encodes a present coordinate pair as
`{type: "Point", coordinates: [longitude, latitude]}` (longitude first),
and `deserialize` decodes that storage form back to
`{longitude, latitude}`. -/
theorem C7_geo_point_roundtrip :
    (∀ (f : Option String → Option String → Option CityConfig)
      (p doc : Venue) (loc : Location) (lo la : Option ℚ),
      p.location = some loc → loc.coordinates = some (.labeled lo la) →
      serialize f p = .ok doc →
      ∃ loc2, doc.location = some loc2 ∧
        loc2.coordinates = some (.point "Point" [lo, la])) ∧
    (∀ (f : Option String → Option String → Option CityConfig)
      (caps : List ℚ) (v view : Venue) (loc : Location) (t : String)
      (lo la : Option ℚ),
      v.location = some loc → loc.coordinates = some (.point t [lo, la]) →
      deserialize f caps v = .ok view →
      ∃ loc2, view.location = some loc2 ∧
        loc2.coordinates = some (.labeled lo la)) := by
  constructor
  · intro f p doc loc lo la hloc hc hser
    obtain ⟨loc2, hl2, _, _, _, _, _, hpoint⟩ :=
      serialize_ok_location f p doc loc hser hloc
    exact ⟨loc2, hl2, hpoint _ hc⟩
  · intro f caps v view loc t lo la hloc hc hdes
    obtain ⟨loc0, loc2, conf, heq1, hdec, hf, hview⟩ :=
      deserialize_ok_destruct f caps v view hdes
    have hv2loc : (deserializeImages (deserializeRename v)).location = some loc := by
      obtain ⟨im, him⟩ := deserializeImages_shape (deserializeRename v)
      rw [him]; exact hloc
    rw [hv2loc] at heq1
    cases Option.some.inj heq1
    have hdc : decodeCoords loc = .ok { loc with
        coordinates := some (.labeled lo la) } := by
      simp [decodeCoords, hc]
    rw [hdc] at hdec
    have hl2 : loc2 = { loc with coordinates := some (.labeled lo la) } :=
      (Except.ok.inj hdec).symm
    refine ⟨loc2, ?_, ?_⟩
    · rw [hview]
      obtain ⟨cr, er, cur, hsh⟩ := deserializeComputed_shape caps conf
        { deserializeImages (deserializeRename v) with location := some loc2 }
      rw [hsh]
    · rw [hl2]

/-- Sample city configuration for concrete witnesses. -/
def sampleConf : CityConfig := ⟨"EUR", ⟨[0, 2, 4], [0, 3, 5]⟩, [0, 5, 10]⟩

/-- Sample config lookup that resolves every city to `sampleConf`. -/
def sampleLookup : Option String → Option String → Option CityConfig :=
  fun _ _ => some sampleConf

/-- Sample location in storage (GeoJSON point) form, at the spec's
example pair `(10.0, 55.0)`. -/
def samplePointLoc : Location :=
  ⟨some "NL", some "Amsterdam", some (.point "Point" [some 10, some 55]), none⟩

/-- Sample location in client (labeled) form, same pair. -/
def sampleLabeledLoc : Location :=
  ⟨some "NL", some "Amsterdam", some (.labeled (some 10) (some 55)), none⟩

/-- Sample client payload carrying the labeled coordinates. -/
def sampleGeoPayload : Venue :=
  { emptyVenue with name := some "V", queryText := some "V", location := some sampleLabeledLoc }

/-- Sample stored document carrying the GeoJSON point. -/
def sampleStoredVenue : Venue :=
  { emptyVenue with location := some samplePointLoc }

/-- Sample client payload with every passthrough field populated. -/
def samplePassthroughPayload : Venue :=
  { emptyVenue with name := some "V", description := some "d", location := some sampleLabeledLoc, capacity := some 60, fees := some ⟨some 5, some 1⟩, prices := some ⟨some 2, some 3⟩ }

/-- Witness for C7 at the spec's example pair `(10.0, 55.0)`: the encoded
document and the decoded view, both computed on concrete venues. -/
theorem C7_geo_point_roundtrip_witness :
    (∃ loc2, ({ emptyVenue with name := some "V", queryText := some "V", location := some samplePointLoc } : Venue).location = some loc2 ∧
      loc2.coordinates = some (.point "Point" [some 10, some 55])) ∧
    (∃ loc2, (deserializeComputed [] sampleConf { deserializeImages (deserializeRename sampleStoredVenue) with location := some sampleLabeledLoc }).location = some loc2 ∧
      loc2.coordinates = some (.labeled (some 10) (some 55))) := by
  constructor
  · exact C7_geo_point_roundtrip.1 sampleLookup sampleGeoPayload _
      sampleLabeledLoc (some 10) (some 55) rfl rfl rfl
  · exact C7_geo_point_roundtrip.2 sampleLookup [] sampleStoredVenue _
      samplePointLoc "Point" (some 10) (some 55) rfl rfl rfl

/-- C6: for every venue-like payload — one with a resolvable location
(truthy country and city whose config lookup succeeds) and a derivable
`queryText` — the round trip
`deserialize(serialize(payload))` succeeds and preserves every
passthrough field (`name`, `description`, `capacity`, `fees`, `prices`,
and the location's `country`, `city` and `address`) at its original
value. -/
theorem C6_roundtrip_passthrough
    (f : Option String → Option String → Option CityConfig)
    (caps : List ℚ) (p : Venue) (loc : Location) (conf : CityConfig)
    (hloc : p.location = some loc)
    (hcc : jsTruthyStr loc.country = true) (hci : jsTruthyStr loc.city = true)
    (hf : f loc.country loc.city = some conf)
    (hname : jsTruthyStr p.queryText = true ∨ p.name ≠ none) :
    ∃ doc view, serialize f p = .ok doc ∧ deserialize f caps doc = .ok view ∧
      view.name = p.name ∧ view.description = p.description ∧
      view.capacity = p.capacity ∧ view.fees = p.fees ∧ view.prices = p.prices ∧
      ∃ loc3, view.location = some loc3 ∧ loc3.country = loc.country ∧
        loc3.city = loc.city ∧ loc3.address = loc.address := by
  obtain ⟨doc, hser⟩ := serialize_ok_of f p loc conf hloc hcc hci hf hname
  obtain ⟨hname', hdesc', hcap', hfees', hprices', _, _, _, _, _⟩ :=
    serialize_ok_frame f p doc hser
  obtain ⟨loc2, hdl2, hco2, hci2, had2, hst2, -, -⟩ :=
    serialize_ok_location f p doc loc hser hloc
  have hf2 : f loc2.country loc2.city = some conf := by
    rw [hco2, hci2]; exact hf
  obtain ⟨loc3, hco3, hci3, had3, -, -, hrun⟩ :=
    deserialize_eq_computed f caps doc loc2 conf hdl2 hst2 hf2
  obtain ⟨im, him⟩ := deserializeImages_shape (deserializeRename doc)
  have hframe := deserializeComputed_frame caps conf
    { deserializeImages (deserializeRename doc) with location := some loc3 }
  refine ⟨doc, _, hser, hrun, ?_, ?_, ?_, ?_, ?_, loc3, ?_, hco3.trans hco2,
    hci3.trans hci2, had3.trans had2⟩
  · refine hframe.1.trans ?_
    rw [him]
    exact hname'
  · refine hframe.2.1.trans ?_
    rw [him]
    exact hdesc'
  · refine hframe.2.2.1.trans ?_
    rw [him]
    exact hcap'
  · refine hframe.2.2.2.1.trans ?_
    rw [him]
    exact hfees'
  · refine hframe.2.2.2.2.1.trans ?_
    rw [him]
    exact hprices'
  · exact hframe.2.2.2.2.2

/-- Witness for C6: a concrete payload with every passthrough field
populated round-trips through serialize and deserialize with those
fields intact. -/
theorem C6_roundtrip_passthrough_witness :
    ∃ doc view, serialize sampleLookup samplePassthroughPayload = .ok doc ∧
      deserialize sampleLookup [0, 50, 100] doc = .ok view ∧
      view.name = samplePassthroughPayload.name ∧
      view.description = samplePassthroughPayload.description ∧
      view.capacity = samplePassthroughPayload.capacity ∧
      view.fees = samplePassthroughPayload.fees ∧
      view.prices = samplePassthroughPayload.prices ∧
      ∃ loc3, view.location = some loc3 ∧ loc3.country = sampleLabeledLoc.country ∧
        loc3.city = sampleLabeledLoc.city ∧ loc3.address = sampleLabeledLoc.address :=
  C6_roundtrip_passthrough sampleLookup [0, 50, 100] samplePassthroughPayload
    sampleLabeledLoc sampleConf rfl rfl rfl rfl (Or.inr (by decide))

